import Mathlib

/-!
Verification of the nuqs `useQueryStates` next-router adapter.

Shallow embedding of:
  - `src/packages/nuqs/src/utils.ts` (`safeParse`, `getDefaultThrottle`);
  - the `useQueryStates` hook module (`update`, `parseMap`, option defaulting);
  - the process-wide update queue and flush scheduler, whose module is not part
    of the sources at hand: those definitions are modelled from the spec and
    are marked as such in their doc comments.

Conventions: TypeScript `T | null` becomes `Option T` (with `none` for `null`);
a function that may throw becomes `Except Unit`-valued; the side effects of the
`update` callback (event-bus emissions, queue enqueues, flush scheduling) are
reified as a trace, a list of `Effect` values in emission order.
-/

namespace Nuqs

/-- History mode for a URL mutation: `push` creates a new history entry,
`replace` rewrites the current one. -/
inductive History
  | push
  | replace
deriving DecidableEq, Repr

/-- Partial options object, as accepted both by the `useQueryStates` hook
declaration and by each call to the returned updater. A `none` field is an
absent (undefined) property. `startTransition` is a function in the source; it
is modelled as an opaque identifier. -/
structure Options where
  history : Option History := none
  scroll : Option Bool := none
  shallow : Option Bool := none
  throttleMs : Option Nat := none
  clearOnDefault : Option Bool := none
  startTransition : Option Nat := none
deriving DecidableEq, Repr

/-- Hook-level options after the defaulting performed by the destructuring in
the `useQueryStates` signature (history, scroll, shallow, throttleMs,
clearOnDefault get defaults; startTransition stays optional). -/
structure HookOptions where
  history : History
  scroll : Bool
  shallow : Bool
  throttleMs : Nat
  clearOnDefault : Bool
  startTransition : Option Nat
deriving DecidableEq, Repr

/-- Options attached to one enqueued update (the object literal passed to
`enqueueQueryStringUpdate` inside `update`). -/
structure UpdateOptions where
  history : History
  shallow : Bool
  scroll : Bool
  throttleMs : Nat
  startTransition : Option Nat
deriving DecidableEq, Repr

/-- Parser record (from `parsers.ts`, typed interface only): `parse` takes the
raw string and returns a value or null (`Option α`), or throws (`Except.error`);
`serialize` and `eq` are optional. -/
structure Parser (α : Type) where
  parse : String → Except Unit (Option α)
  serialize : Option (α → String) := none
  eq : Option (α → α → Bool) := none

/-- One entry of the key map handed to `useQueryStates`: a parser plus an
optional default value. -/
structure KeyMapValue (α : Type) extends Parser α where
  defaultValue : Option α := none

/-- The key map: an association of query-string keys to their configurations,
in declaration order (JavaScript object keys are unique and ordered). -/
abbrev KeyMap (α : Type) : Type := List (String × KeyMapValue α)

/-- URL search parameters, as an ordered association list (the shape relevant
to `URLSearchParams.get`, `set` and `delete`). -/
abbrev Params : Type := List (String × String)

/-- The process-wide update queue: pending serialized values per key, `none`
meaning a queued removal of the parameter. -/
abbrev Queue : Type := List (String × Option String)

/-- One observable side effect of a call to the `update` function, in program
order: a per-key optimistic event-bus emission, a queue enqueue, or the single
flush scheduling. -/
inductive Effect (α : Type)
  | emit (key : String) (value : Option α)
  | enqueue (key : String) (value : Option String) (opts : UpdateOptions)
  | scheduleFlush
deriving DecidableEq, Repr

/-! ## utils.ts -/

/-- Embedding of `safeParse` from `utils.ts`: run the parser inside try/catch,
returning its result when it does not throw, and `null` (after logging a
warning, not modelled) when it throws. -/
def safeParse {α : Type} (parser : String → Except Unit (Option α))
    (value : String) (key : Option String := none) : Option α :=
  match parser value, key with
  | Except.ok v, _ => v
  | Except.error _, _ => none

/-- Characters admitted by the capture group `[\d\.]+` of the Safari version
regex: decimal digits and the dot. -/
def isVersionChar (c : Char) : Bool :=
  c.isDigit || c = '.'

/-- Case-insensitive literal match (the `i` regex flag): consume `lit` from the
front of `cs`, returning the remainder on success. -/
def matchLitCI : List Char → List Char → Option (List Char)
  | [], cs => some cs
  | _ :: _, [] => none
  | l :: ls, c :: cs => if l.toLower = c.toLower then matchLitCI ls cs else none

/-- Attempt to match `/version\/([\d\.]+) safari/i` at the start of `cs`,
returning the capture group. The greedy `[\d\.]+` needs no backtracking since
none of its characters can begin ` safari`. -/
def matchVersionAt (cs : List Char) : Option String :=
  match matchLitCI "version/".toList cs with
  | none => none
  | some rest =>
    let grp := rest.takeWhile isVersionChar
    if grp.isEmpty then none
    else
      match matchLitCI " safari".toList (rest.drop grp.length) with
      | none => none
      | some _ => String.mk grp

/-- Leftmost match of the Safari version regex over the user-agent string:
try each start position in order, as `String.prototype.match` does. -/
def searchVersion : List Char → Option String
  | [] => none
  | c :: cs =>
    match matchVersionAt (c :: cs) with
    | some g => some g
    | none => searchVersion cs

/-- Numeric value of a list of decimal digit characters. -/
def digitsToNat (cs : List Char) : Nat :=
  cs.foldl (fun n c => 10 * n + (c.toNat - 48)) 0

/-- JavaScript `parseFloat` restricted to strings made of digits and dots (the
only characters the capture group can contain): a leading run of digits, an
optional dot followed by more digits, the rest ignored; `none` models `NaN`. -/
def jsParseFloatVer (s : String) : Option ℚ :=
  let cs := s.toList
  let intPart := cs.takeWhile Char.isDigit
  match cs.drop intPart.length with
  | '.' :: rest =>
    let fracPart := rest.takeWhile Char.isDigit
    if intPart.isEmpty && fracPart.isEmpty then none
    else some ((digitsToNat intPart : ℚ)
        + (digitsToNat fracPart : ℚ) / ((10 : ℚ) ^ fracPart.length))
  | _ => if intPart.isEmpty then none else some (digitsToNat intPart : ℚ)

/-- Execution environment of `getDefaultThrottle`: whether `window` exists,
whether `window.GestureEvent` is truthy (the Safari detection), and the value
of `navigator.userAgent` (`none` when undefined). -/
structure BrowserEnv where
  hasWindow : Bool
  hasGestureEvent : Bool
  userAgent : Option String
deriving DecidableEq, Repr

/-- Embedding of `getDefaultThrottle` from `utils.ts`. An undefined user agent
or a failed regex match makes the non-null assertion `match![1]!` throw, which
the surrounding try/catch turns into 320; a `NaN` version compares false
against 17 and also yields 320. -/
def getDefaultThrottle (env : BrowserEnv) : Nat :=
  if !env.hasWindow then 50
  else if !env.hasGestureEvent then 50
  else
    match env.userAgent with
    | none => 320
    | some ua =>
      match searchVersion ua.toList with
      | none => 320
      | some grp =>
        match jsParseFloatVer grp with
        | none => 320
        | some v => if 17 ≤ v then 120 else 320

/-! ## update-queue (modelled from the spec)

The `update-queue` module (`FLUSH_RATE_LIMIT_MS`, `enqueueQueryStringUpdate`,
`getQueuedValue`, `scheduleFlushToURL`) is not among the sources at hand; the
definitions below are modelled from the specification (sections 3, 4.2, 4.4
and 6). -/

/-- Modelled from the spec: the default minimum spacing between flushes,
exported by the missing update-queue module; a platform-sensitive safe
constant, treated as opaque by every claim that mentions it. -/
def FLUSH_RATE_LIMIT_MS : Nat := 50

/-- Overwrite-or-append on an association list, keeping the original position
of an existing key (JavaScript `Map.set` semantics). -/
def setAssoc {β : Type} (key : String) (val : β) :
    List (String × β) → List (String × β)
  | [] => [(key, val)]
  | (k, v) :: rest =>
    if k == key then (key, val) :: rest else (k, v) :: setAssoc key val rest

/-- Modelled from the spec: `enqueue(key, value, options)` of the missing
update-queue module overwrites any existing pending value for `key` (at most
one pending value per key, last write wins); the option merge is not needed by
the claims and is not modelled. -/
def enqueueQueryStringUpdate (key : String) (value : Option String)
    (queue : Queue) : Queue :=
  setAssoc key value queue

/-- Modelled from the spec: `peek(key)` of the missing update-queue module
returns the pending value for `key` if present, else a not-pending sentinel.
Its TypeScript return type is `string | null`, so a queued `null` (a pending
removal) is reported identically to "not pending". -/
def getQueuedValue (queue : Queue) (key : String) : Option String :=
  (List.lookup key queue).join

/-- Set a URL search parameter: replace the value at the first occurrence of
the key, or append when absent (`URLSearchParams.set`). -/
def setParam (key : String) (val : String) : Params → Params :=
  setAssoc key val

/-- Delete a URL search parameter everywhere (`URLSearchParams.delete`). -/
def deleteParam (key : String) (params : Params) : Params :=
  params.filter (fun e => !(e.1 == key))

/-- Modelled from the spec (section 4.4): apply one drained queue entry to the
search parameters — `null` deletes the parameter, a string sets it. -/
def applyQueueEntry (params : Params) (entry : String × Option String) :
    Params :=
  match entry.2 with
  | none => deleteParam entry.1 params
  | some s => setParam entry.1 s params

/-- Modelled from the spec (section 4.4): the merge-into-URL step of a flush —
start from the current search parameters and apply every drained queue entry
in order; parameters not named by the batch are left untouched. -/
def flushMerge (queue : Queue) (params : Params) : Params :=
  queue.foldl applyQueueEntry params

/-- Modelled from the spec (sections 4.3 and 6): `scheduleFlushToURL` returns
the flush promise; it resolves with the post-flush URL state, the current
search parameters merged with the drained queue. Throttle timing is real time
and is not part of the value the promise resolves with. -/
def scheduleFlushToURL (queue : Queue) (params : Params) : Params :=
  flushMerge queue params

/-! ## useQueryStates -/

/-- Defaulting of hook-declaration options, from the destructuring in the
`useQueryStates` signature: `history = replace`, `scroll = false`,
`shallow = true`, `throttleMs = FLUSH_RATE_LIMIT_MS`,
`clearOnDefault = false`, `startTransition` left undefined-able. -/
def resolveHookOptions (o : Options) : HookOptions where
  history := o.history.getD History.replace
  scroll := o.scroll.getD false
  shallow := o.shallow.getD true
  throttleMs := o.throttleMs.getD FLUSH_RATE_LIMIT_MS
  clearOnDefault := o.clearOnDefault.getD false
  startTransition := o.startTransition

/-- The clearOnDefault step of `update`: when clearing is enabled at call or
hook level, the value is non-null, the key declares a default, and the value
equals the default under the configured `eq` (strict equality when absent),
the value is replaced by `null`. -/
def transformValue {α : Type} [BEq α] (hook : HookOptions) (callOpts : Options)
    (cfg : KeyMapValue α) (value : Option α) : Option α :=
  match value, cfg.defaultValue with
  | some v, some d =>
    if (callOpts.clearOnDefault.getD false || hook.clearOnDefault)
        && (cfg.eq.getD (fun a b => a == b)) v d
    then none else some v
  | _, _ => value

/-- Serialization applied on enqueue: `config.serialize ?? String`, the
JavaScript `String` coercion modelled by `ToString`; `null` stays `null`. -/
def serializedValue {α : Type} [ToString α] (cfg : KeyMapValue α)
    (value : Option α) : Option String :=
  value.map (cfg.serialize.getD toString)

/-- The options object built for `enqueueQueryStringUpdate` in `update`:
each call-level option takes precedence, falling back to the hook-declaration
option when absent. -/
def mergeOpts (callOpts : Options) (hook : HookOptions) : UpdateOptions where
  history := callOpts.history.getD hook.history
  shallow := callOpts.shallow.getD hook.shallow
  scroll := callOpts.scroll.getD hook.scroll
  throttleMs := callOpts.throttleMs.getD hook.throttleMs
  startTransition := callOpts.startTransition.orElse (fun _ => hook.startTransition)

/-- Effects performed by one iteration of the `for` loop in `update` for the
entry `kv` of the new state object: nothing when the key is not declared in
the key map; otherwise the optimistic per-key emission followed by the queue
enqueue, in that order. -/
def entryEffects {α : Type} [BEq α] [ToString α] (keyMap : KeyMap α)
    (hook : HookOptions) (callOpts : Options) (kv : String × Option α) :
    List (Effect α) :=
  match List.lookup kv.1 keyMap with
  | none => []
  | some cfg =>
    let value := transformValue hook callOpts cfg kv.2
    [Effect.emit kv.1 value,
     Effect.enqueue kv.1 (serializedValue cfg value) (mergeOpts callOpts hook)]

/-- Concatenated per-entry effects of the `for` loop of `update`, in iteration
order (`Object.entries` order of the new state object). -/
def loopEffects {α : Type} [BEq α] [ToString α] (keyMap : KeyMap α)
    (hook : HookOptions) (callOpts : Options) :
    List (String × Option α) → List (Effect α)
  | [] => []
  | kv :: rest =>
    entryEffects keyMap hook callOpts kv ++ loopEffects keyMap hook callOpts rest

/-- The update queue after the `for` loop of `update`: each declared entry is
enqueued (serialized) in iteration order, undeclared keys are skipped. -/
def queueAfterUpdate {α : Type} [BEq α] [ToString α] (keyMap : KeyMap α)
    (hook : HookOptions) (callOpts : Options)
    (newState : List (String × Option α)) (q : Queue) : Queue :=
  newState.foldl
    (fun q kv =>
      match List.lookup kv.1 keyMap with
      | none => q
      | some cfg =>
        enqueueQueryStringUpdate kv.1
          (serializedValue cfg (transformValue hook callOpts cfg kv.2)) q)
    q

/-- Embedding of the `update` callback of `useQueryStates`: given the resolved
new state object (the updater function, when passed one, has already been
applied to the current state), it performs the per-entry effects, then a
single `scheduleFlushToURL` call whose promise it returns. The result is the
effect trace, the queue after the call, and the value the returned promise
resolves with. -/
def update {α : Type} [BEq α] [ToString α] (keyMap : KeyMap α)
    (hook : HookOptions) (callOpts : Options)
    (newState : List (String × Option α)) (q : Queue) (params : Params) :
    List (Effect α) × Queue × Params :=
  (loopEffects keyMap hook callOpts newState ++ [Effect.scheduleFlush],
   queueAfterUpdate keyMap hook callOpts newState q,
   scheduleFlushToURL (queueAfterUpdate keyMap hook callOpts newState q) params)

/-- The raw query string considered by `parseMap` for one key:
`getQueuedValue(key) ?? (searchParams.get(key) ?? null)`. -/
def rawQuery (queue : Queue) (params : Params) (key : String) : Option String :=
  (getQueuedValue queue key).orElse (fun _ => List.lookup key params)

/-- The value `parseMap` computes for one key of the key map: parse the raw
query when present (safely, a throwing parser degrading to `null`), then fall
back to the declared default, then to `null`. -/
def parseKey {α : Type} (cfg : KeyMapValue α) (queue : Queue) (params : Params)
    (key : String) : Option α :=
  let value :=
    match rawQuery queue params key with
    | none => none
    | some q => safeParse cfg.parse q (some key)
  value.orElse (fun _ => cfg.defaultValue)

/-- Embedding of `parseMap`: the consumer state object, one entry per declared
key in declaration order. -/
def parseMap {α : Type} (keyMap : KeyMap α) (queue : Queue) (params : Params) :
    List (String × Option α) :=
  keyMap.map (fun e => (e.1, parseKey e.2 queue params e.1))

/-! ## Auxiliary definitions for the statements -/

/-- Recognizer for the flush-scheduling effect, used to count flushes in a
trace. -/
def isScheduleFlush {α : Type} : Effect α → Bool
  | Effect.scheduleFlush => true
  | _ => false

/-- Spec-side characterization of the Safari detection performed inside the
try/catch of `getDefaultThrottle`: the user agent is present, the version
regex matches, and the captured version parses to a float of at least 17. -/
def detectedSafari17 (ua : Option String) : Bool :=
  match ua with
  | none => false
  | some s =>
    match searchVersion s.toList with
    | none => false
    | some grp =>
      match jsParseFloatVer grp with
      | none => false
      | some v => decide (17 ≤ v)

/-- Concrete decimal parser for witnesses: value of an all-digit non-empty
string, `null` otherwise; never throws. -/
def parseNatStrict (s : String) : Option Nat :=
  if s.toList.isEmpty || !s.toList.all Char.isDigit then none
  else some (digitsToNat s.toList)

/-- Concrete key configuration for witnesses: parse a natural number, no
default value. -/
def natCfg : KeyMapValue Nat where
  parse := fun s => Except.ok (parseNatStrict s)

/-- Concrete key configuration for witnesses: parse a natural number with
default value 5. -/
def natCfgDef : KeyMapValue Nat where
  parse := fun s => Except.ok (parseNatStrict s)
  defaultValue := some 5

/-- Concrete key configuration for witnesses: a parser that always throws. -/
def throwCfg : KeyMapValue Nat where
  parse := fun _ => Except.error ()
  defaultValue := some 5

/-- Concrete hook-declaration options for witnesses: scroll and throttleMs
set, the rest absent. -/
def exDeclOpts : Options where
  scroll := some true
  throttleMs := some 99

/-- Concrete call-level options for witnesses: history, shallow and
startTransition set, the rest absent. -/
def exCallOpts : Options where
  history := some History.push
  shallow := some false
  startTransition := some 7

end Nuqs

namespace Nuqs

/-! ## Helper lemmas -/

theorem lookup_cons_beq {β : Type} (key ek : String) (ev : β)
    (rest : List (String × β)) :
    List.lookup key ((ek, ev) :: rest) =
      if key = ek then some ev else List.lookup key rest := by
  by_cases hk : key = ek
  · have hb : (key == ek) = true := beq_iff_eq.mpr hk
    simp [List.lookup, hb, hk]
  · have hb : (key == ek) = false := beq_eq_false_iff_ne.mpr hk
    simp [List.lookup, hb, hk]

theorem lookup_setAssoc {β : Type} (key k : String) (v : β)
    (l : List (String × β)) :
    List.lookup key (setAssoc k v l) =
      if key = k then some v else List.lookup key l := by
  induction l with
  | nil =>
    simp only [setAssoc]
    exact lookup_cons_beq key k v []
  | cons e rest ih =>
    obtain ⟨ek, ev⟩ := e
    by_cases hek : ek = k
    · have hb : (ek == k) = true := beq_iff_eq.mpr hek
      subst hek
      simp only [setAssoc, hb, if_true]
      rw [lookup_cons_beq, lookup_cons_beq]
      by_cases hk : key = ek <;> simp [hk]
    · have hb : (ek == k) = false := beq_eq_false_iff_ne.mpr hek
      simp only [setAssoc, hb, Bool.false_eq_true, if_false]
      rw [lookup_cons_beq, lookup_cons_beq, ih]
      by_cases hk : key = ek
      · subst hk
        simp [hek]
      · simp [hk]

theorem lookup_deleteParam (key k : String) (p : Params) :
    List.lookup key (deleteParam k p) =
      if key = k then none else List.lookup key p := by
  induction p with
  | nil => simp [deleteParam, List.lookup]
  | cons e rest ih =>
    obtain ⟨ek, ev⟩ := e
    by_cases hek : ek = k
    · have hb : (ek == k) = true := beq_iff_eq.mpr hek
      have hstep : deleteParam k ((ek, ev) :: rest) = deleteParam k rest := by
        simp [deleteParam, List.filter_cons, hb]
      subst hek
      rw [hstep, ih, lookup_cons_beq]
      by_cases hk : key = ek <;> simp [hk]
    · have hb : (ek == k) = false := beq_eq_false_iff_ne.mpr hek
      have hstep : deleteParam k ((ek, ev) :: rest) = (ek, ev) :: deleteParam k rest := by
        simp [deleteParam, List.filter_cons, hb]
      rw [hstep, lookup_cons_beq, ih, lookup_cons_beq]
      by_cases hk : key = ek
      · subst hk
        simp [hek]
      · simp [hk]

theorem lookup_applyQueueEntry (key : String) (p : Params)
    (entry : String × Option String) :
    List.lookup key (applyQueueEntry p entry) =
      if key = entry.1 then entry.2 else List.lookup key p := by
  obtain ⟨k, w⟩ := entry
  cases w with
  | none => simpa using lookup_deleteParam key k p
  | some s => simpa [applyQueueEntry, setParam] using lookup_setAssoc key k s p

theorem lookup_append_pair {β : Type} (key : String) (l : List (String × β))
    (k : String) (w : β) :
    List.lookup key (l ++ [(k, w)]) =
      match List.lookup key l with
      | some x => some x
      | none => if key = k then some w else none := by
  induction l with
  | nil =>
    simp only [List.nil_append, List.lookup]
    exact lookup_cons_beq key k w []
  | cons e rest ih =>
    obtain ⟨ek, ev⟩ := e
    rw [List.cons_append, lookup_cons_beq, lookup_cons_beq, ih]
    by_cases hk : key = ek
    · simp [hk]
    · simp [hk]

theorem flushMerge_lookup (queue : Queue) (p : Params) (key : String) :
    List.lookup key (flushMerge queue p) =
      (List.lookup key queue.reverse).getD (List.lookup key p) := by
  induction queue generalizing p with
  | nil => simp [flushMerge, List.lookup]
  | cons a t ih =>
    obtain ⟨k, w⟩ := a
    have hstep : flushMerge ((k, w) :: t) p = flushMerge t (applyQueueEntry p (k, w)) := rfl
    rw [hstep, ih, List.reverse_cons, lookup_append_pair]
    cases hq : List.lookup key t.reverse with
    | some x => simp
    | none =>
      simp only [lookup_applyQueueEntry]
      by_cases hk : key = k
      · subst hk
        simp
      · simp [hk]

theorem entryEffects_shape {α : Type} [BEq α] [ToString α] (km : KeyMap α)
    (hook : HookOptions) (opts : Options) (kv : String × Option α) :
    entryEffects km hook opts kv = [] ∨
      ∃ cfg, List.lookup kv.1 km = some cfg ∧
        entryEffects km hook opts kv =
          [Effect.emit kv.1 (transformValue hook opts cfg kv.2),
           Effect.enqueue kv.1
             (serializedValue cfg (transformValue hook opts cfg kv.2))
             (mergeOpts opts hook)] := by
  cases h : List.lookup kv.1 km with
  | none =>
    left
    simp [entryEffects, h]
  | some cfg =>
    right
    exact ⟨cfg, rfl, by simp [entryEffects, h]⟩

theorem loop_no_schedule {α : Type} [BEq α] [ToString α] (km : KeyMap α)
    (hook : HookOptions) (opts : Options) :
    ∀ ns : List (String × Option α),
      Effect.scheduleFlush ∉ loopEffects km hook opts ns := by
  intro ns
  induction ns with
  | nil => simp [loopEffects]
  | cons kv rest ih =>
    simp only [loopEffects, List.mem_append]
    rintro (hmem | hmem)
    · rcases entryEffects_shape km hook opts kv with h | ⟨cfg, _, h⟩ <;>
        · rw [h] at hmem
          simp at hmem
    · exact ih hmem

theorem loop_emit_next {α : Type} [BEq α] [ToString α] (km : KeyMap α)
    (hook : HookOptions) (opts : Options) :
    ∀ (ns : List (String × Option α)) (n : Nat) (key : String) (v : Option α),
      (loopEffects km hook opts ns).get? n = some (Effect.emit key v) →
      ∃ w o, (loopEffects km hook opts ns).get? (n + 1) =
        some (Effect.enqueue key w o) := by
  intro ns
  induction ns with
  | nil => intro n key v h; simp [loopEffects] at h
  | cons kv rest ih =>
    intro n key v h
    rcases entryEffects_shape km hook opts kv with hsh | ⟨cfg, _, hsh⟩
    · rw [loopEffects, hsh, List.nil_append] at h ⊢
      exact ih n key v h
    · rw [loopEffects, hsh, List.cons_append, List.cons_append] at h ⊢
      match n with
      | 0 =>
        simp only [List.get?] at h ⊢
        cases h
        exact ⟨_, _, rfl⟩
      | 1 =>
        simp only [List.get?] at h
        cases h
      | Nat.succ (Nat.succ m) =>
        simp only [List.get?] at h ⊢
        exact ih m key v h

theorem loop_enqueue_opts {α : Type} [BEq α] [ToString α] (km : KeyMap α)
    (hook : HookOptions) (opts : Options) :
    ∀ (ns : List (String × Option α)) (key : String) (w : Option String)
      (o : UpdateOptions),
      Effect.enqueue key w o ∈ loopEffects km hook opts ns →
      o = mergeOpts opts hook := by
  intro ns
  induction ns with
  | nil => intro key w o h; simp [loopEffects] at h
  | cons kv rest ih =>
    intro key w o h
    rw [loopEffects, List.mem_append] at h
    rcases h with h | h
    · rcases entryEffects_shape km hook opts kv with hsh | ⟨cfg, _, hsh⟩
      · rw [hsh] at h
        simp at h
      · rw [hsh] at h
        simp only [List.mem_cons, List.mem_singleton] at h
        rcases h with h | h | h
        · cases h
        · cases h
          rfl
        · cases h
    · exact ih key w o h

theorem isScheduleFlush_eq_true {α : Type} (e : Effect α) :
    isScheduleFlush e = true → e = Effect.scheduleFlush := by
  cases e <;> simp [isScheduleFlush]

theorem loopEffects_filter_declared {α : Type} [BEq α] [ToString α]
    (km : KeyMap α) (hook : HookOptions) (opts : Options) :
    ∀ ns : List (String × Option α),
      loopEffects km hook opts
          (ns.filter (fun kv => (List.lookup kv.1 km).isSome)) =
        loopEffects km hook opts ns := by
  intro ns
  induction ns with
  | nil => rfl
  | cons kv rest ih =>
    rw [List.filter_cons]
    cases h : List.lookup kv.1 km with
    | none =>
      simp only [h, Option.isSome_none, Bool.false_eq_true, if_false]
      rw [ih]
      have hkv : entryEffects km hook opts kv = [] := by
        simp [entryEffects, h]
      rw [loopEffects, hkv, List.nil_append]
    | some cfg =>
      simp only [h, Option.isSome_some, if_true]
      rw [loopEffects, loopEffects, ih]

theorem queueAfterUpdate_filter_declared {α : Type} [BEq α] [ToString α]
    (km : KeyMap α) (hook : HookOptions) (opts : Options) :
    ∀ (ns : List (String × Option α)) (q : Queue),
      queueAfterUpdate km hook opts
          (ns.filter (fun kv => (List.lookup kv.1 km).isSome)) q =
        queueAfterUpdate km hook opts ns q := by
  intro ns
  induction ns with
  | nil => intro q; rfl
  | cons kv rest ih =>
    intro q
    rw [List.filter_cons]
    cases h : List.lookup kv.1 km with
    | none =>
      simp only [h, Option.isSome_none, Bool.false_eq_true, if_false]
      rw [ih]
      simp only [queueAfterUpdate, List.foldl_cons, h]
    | some cfg =>
      simp only [h, Option.isSome_some, if_true]
      simp only [queueAfterUpdate, List.foldl_cons, h]
      exact ih _

theorem parseMap_lookup {α : Type} (km : KeyMap α) (queue : Queue)
    (params : Params) (key : String) (cfg : KeyMapValue α)
    (h : List.lookup key km = some cfg) :
    List.lookup key (parseMap km queue params) =
      some (parseKey cfg queue params key) := by
  induction km with
  | nil => simp [List.lookup] at h
  | cons e rest ih =>
    obtain ⟨ek, ecfg⟩ := e
    rw [lookup_cons_beq] at h
    simp only [parseMap, List.map_cons]
    rw [lookup_cons_beq]
    by_cases hk : key = ek
    · rw [if_pos hk] at h ⊢
      cases h
      subst hk
      rfl
    · rw [if_neg hk] at h ⊢
      exact ih h

theorem parseKey_no_raw_query {α : Type} (cfg : KeyMapValue α) (queue : Queue)
    (params : Params) (key : String)
    (h : rawQuery queue params key = none) :
    parseKey cfg queue params key = cfg.defaultValue := by
  simp [parseKey, h, Option.orElse]

/-! ## Claims -/

/-- Claim C3: for every parser function and every input string, `safeParse`
returns the parser's result when the parser does not throw, and returns `null`
(after logging a warning, which is not modelled) when the parser throws;
`safeParse` is a total function and hence never throws. -/
theorem safeParse_total_spec {α : Type} (p : String → Except Unit (Option α))
    (value : String) (key : Option String) :
    (∀ r, p value = Except.ok r → safeParse p value key = r) ∧
    (∀ e, p value = Except.error e → safeParse p value key = none) := by
  constructor
  · intro r h
    simp [safeParse, h]
  · intro e h
    simp [safeParse, h]

/-- Witness for C3 at a concrete succeeding parser and a concrete throwing
parser. -/
theorem safeParse_total_spec_witness :
    safeParse natCfg.parse "42" (some "k") = some 42 ∧
    safeParse throwCfg.parse "42" none = none := by
  constructor
  · exact (safeParse_total_spec natCfg.parse "42" (some "k")).1 (some 42) (by rfl)
  · exact (safeParse_total_spec throwCfg.parse "42" none).2 () rfl

/-- Claim C6: `getDefaultThrottle` always returns at least 50 and follows the
documented case split — no `window`: 50; window but not Safari: 50; Safari with
a detected version of at least 17: 120; Safari otherwise (no user agent, no
regex match, or an unparsable version): 320. It is a total function of the
environment, so it never throws, also on missing or malformed user agents. -/
theorem getDefaultThrottle_cases (env : BrowserEnv) :
    50 ≤ getDefaultThrottle env ∧
    getDefaultThrottle env =
      (if !env.hasWindow then 50
       else if !env.hasGestureEvent then 50
       else cond (detectedSafari17 env.userAgent) 120 320) := by
  obtain ⟨hw, hg, ua⟩ := env
  have hmain : getDefaultThrottle ⟨hw, hg, ua⟩ =
      (if !hw then 50
       else if !hg then 50
       else cond (detectedSafari17 ua) 120 320) := by
    cases hw
    · rfl
    · cases hg
      · rfl
      · cases ua with
        | none => rfl
        | some s =>
          simp only [getDefaultThrottle, detectedSafari17, Bool.not_true,
            Bool.false_eq_true, if_false]
          generalize searchVersion s.toList = x
          cases x with
          | none => rfl
          | some grp =>
            dsimp only
            generalize jsParseFloatVer grp = y
            cases y with
            | none => rfl
            | some v =>
              dsimp only
              by_cases hv : (17 : ℚ) ≤ v
              · simp [hv]
              · simp [hv]
  refine ⟨?_, hmain⟩
  rw [hmain]
  split
  · norm_num
  · split
    · norm_num
    · cases detectedSafari17 ua <;> norm_num

/-- Claim C5: for a key declared in the key map, when the key is absent from
both the update queue and the URL, or when the raw query parses with an
exception, `parseMap` yields the declared `defaultValue` when defined and
`null` otherwise (in both cases, literally the `defaultValue` option of the
configuration); `parseMap` is total, so it never throws. -/
theorem parseMap_default_on_absent_or_error {α : Type} (km : KeyMap α)
    (queue : Queue) (params : Params) (key : String) (cfg : KeyMapValue α)
    (hcfg : List.lookup key km = some cfg) :
    ((List.lookup key queue = none ∧ List.lookup key params = none) →
      List.lookup key (parseMap km queue params) = some cfg.defaultValue) ∧
    (∀ raw, rawQuery queue params key = some raw →
      cfg.parse raw = Except.error () →
      List.lookup key (parseMap km queue params) = some cfg.defaultValue) := by
  constructor
  · rintro ⟨h1, h2⟩
    rw [parseMap_lookup km queue params key cfg hcfg]
    have hraw : rawQuery queue params key = none := by
      simp [rawQuery, getQueuedValue, h1, h2, Option.orElse]
    rw [parseKey_no_raw_query cfg queue params key hraw]
  · intro raw hraw herr
    rw [parseMap_lookup km queue params key cfg hcfg]
    simp [parseKey, hraw, safeParse, herr, Option.orElse]

/-- Witness for C5: a key with default 5 absent from queue and URL yields 5;
a key whose parser throws on the URL value also yields its default 5. -/
theorem parseMap_default_on_absent_or_error_witness :
    List.lookup "k" (parseMap [("k", natCfgDef)] [] []) = some (some 5) ∧
    List.lookup "k" (parseMap [("k", throwCfg)] [] [("k", "boom")]) =
      some (some 5) := by
  constructor
  · exact (parseMap_default_on_absent_or_error [("k", natCfgDef)] [] [] "k"
      natCfgDef rfl).1 ⟨rfl, rfl⟩
  · exact (parseMap_default_on_absent_or_error [("k", throwCfg)] []
      [("k", "boom")] "k" throwCfg rfl).2 "boom" rfl rfl

/-- Claim C4 as stated is false on the code: here the key `k` has a pending
queued value (a queued removal, `null`), yet `parseMap` yields the value
parsed from the URL (`1`) rather than ignoring the URL; with an empty URL the
same pending queue yields `null`, showing the URL value was used while a
queued value was pending. -/
theorem parseMap_queue_precedence_counterexample :
    (List.lookup "k" ([("k", none)] : Queue)).isSome = true ∧
    List.lookup "k" (parseMap [("k", natCfg)] [("k", none)] [("k", "1")]) =
      some (some 1) ∧
    List.lookup "k" (parseMap [("k", natCfg)] [("k", none)] []) = some none := by
  refine ⟨rfl, ?_, ?_⟩ <;> rfl

/-- Claim C4, amended: a pending queued non-null value takes precedence over
the URL — the computed value then does not depend on the URL parameters at
all; but when no value is pending for the key, or the pending value is `null`
(a queued removal, which `getQueuedValue` cannot distinguish from "not
pending" and which the `??` in `parseMap` therefore skips), the key is read
from the URL exactly as with an empty queue. -/
theorem parseKey_queue_precedence_amended {α : Type} (cfg : KeyMapValue α)
    (queue : Queue) (key : String) :
    (∀ s, getQueuedValue queue key = some s → ∀ params : Params,
      parseKey cfg queue params key =
        (safeParse cfg.parse s (some key)).orElse (fun _ => cfg.defaultValue)) ∧
    (getQueuedValue queue key = none → ∀ params : Params,
      parseKey cfg queue params key = parseKey cfg [] params key) := by
  constructor
  · intro s hs params
    simp [parseKey, rawQuery, hs, Option.orElse]
  · intro hs params
    have h0 : getQueuedValue ([] : Queue) key = none := rfl
    simp [parseKey, rawQuery, hs, h0, Option.orElse]

/-- Witness for the amended C4: a pending non-null value `2` wins over the URL
value `1`; a pending removal makes the lookup behave as with an empty queue. -/
theorem parseKey_queue_precedence_amended_witness :
    parseKey natCfg [("k", some "2")] [("k", "1")] "k" = some 2 ∧
    parseKey natCfg [("k", none)] [("k", "1")] "k" =
      parseKey natCfg [] [("k", "1")] "k" := by
  constructor
  · rw [(parseKey_queue_precedence_amended natCfg [("k", some "2")] "k").1 "2"
      rfl [("k", "1")]]
    rfl
  · exact (parseKey_queue_precedence_amended natCfg [("k", none)] "k").2
      rfl [("k", "1")]

/-- Claim C1: every call to `update`, whatever the number of keys in the new
state object, performs exactly one `scheduleFlushToURL` call — the trace
contains exactly one flush-scheduling effect, as its last element — and the
promise returned to the caller is that single call's promise. -/
theorem update_single_flush {α : Type} [BEq α] [ToString α] (km : KeyMap α)
    (hook : HookOptions) (opts : Options) (ns : List (String × Option α))
    (q : Queue) (p : Params) :
    ((update km hook opts ns q p).1.filter isScheduleFlush =
        [Effect.scheduleFlush] ∧
      (update km hook opts ns q p).1.getLast? = some Effect.scheduleFlush) ∧
    (update km hook opts ns q p).2.2 =
      scheduleFlushToURL (update km hook opts ns q p).2.1 p := by
  refine ⟨⟨?_, ?_⟩, rfl⟩
  · show (loopEffects km hook opts ns ++ [Effect.scheduleFlush]).filter
        isScheduleFlush = [Effect.scheduleFlush]
    rw [List.filter_append]
    have hno : (loopEffects km hook opts ns).filter isScheduleFlush = [] := by
      rw [List.filter_eq_nil]
      intro e he hp
      exact loop_no_schedule km hook opts ns (isScheduleFlush_eq_true e hp ▸ he)
    rw [hno]
    rfl
  · show (loopEffects km hook opts ns ++ [Effect.scheduleFlush]).getLast? =
        some Effect.scheduleFlush
    exact List.getLast?_concat _

/-- Claim C2: whenever position `n` of an `update` trace is the optimistic
emission for some key, position `n + 1` is the enqueue for that same key, and
every flush-scheduling effect lies strictly later than `n`; the per-key event
is therefore emitted strictly before the update is enqueued and strictly
before the flush (and hence the batch's URL mutation) is scheduled. -/
theorem update_emit_before_enqueue_and_flush {α : Type} [BEq α] [ToString α]
    (km : KeyMap α) (hook : HookOptions) (opts : Options)
    (ns : List (String × Option α)) (q : Queue) (p : Params)
    (n : Nat) (key : String) (v : Option α)
    (h : (update km hook opts ns q p).1.get? n = some (Effect.emit key v)) :
    (∃ w o, (update km hook opts ns q p).1.get? (n + 1) =
      some (Effect.enqueue key w o)) ∧
    ∀ m, (update km hook opts ns q p).1.get? m =
        some (Effect.scheduleFlush) → n < m := by
  have htr : (update km hook opts ns q p).1 =
      loopEffects km hook opts ns ++ [Effect.scheduleFlush] := rfl
  rw [htr] at h
  have hn : n < (loopEffects km hook opts ns).length := by
    by_contra hge
    push_neg at hge
    rw [List.get?_append_right hge] at h
    match hd : n - (loopEffects km hook opts ns).length with
    | 0 => rw [hd] at h; cases h
    | Nat.succ m => rw [hd] at h; cases h
  have hL : (loopEffects km hook opts ns).get? n = some (Effect.emit key v) := by
    rw [List.get?_append hn] at h
    exact h
  obtain ⟨w, o, hL2⟩ := loop_emit_next km hook opts ns n key v hL
  have hn1 : n + 1 < (loopEffects km hook opts ns).length :=
    (List.get?_eq_some.mp hL2).1
  constructor
  · exact ⟨w, o, by rw [htr, List.get?_append hn1]; exact hL2⟩
  · intro m hm
    rw [htr] at hm
    by_cases hmlt : m < (loopEffects km hook opts ns).length
    · exfalso
      rw [List.get?_append hmlt] at hm
      exact loop_no_schedule km hook opts ns (List.get?_mem hm)
    · push_neg at hmlt
      exact lt_of_lt_of_le hn hmlt

/-- Witness for C2 on a one-key update: the emission at position 0 is followed
by the enqueue at position 1 and precedes every flush scheduling. -/
theorem update_emit_before_enqueue_and_flush_witness :
    (∃ w o,
      (update [("a", natCfg)] (resolveHookOptions {}) {} [("a", some 3)]
          [] []).1.get? 1 = some (Effect.enqueue "a" w o)) ∧
    ∀ m, (update [("a", natCfg)] (resolveHookOptions {}) {} [("a", some 3)]
        [] []).1.get? m = some (Effect.scheduleFlush) → 0 < m :=
  update_emit_before_enqueue_and_flush [("a", natCfg)] (resolveHookOptions {})
    {} [("a", some 3)] [] [] 0 "a" (some 3) rfl

/-- Claim C7 (promise semantics modelled from the spec): the value returned by
`update` to the caller is the post-flush URL state — the current search
parameters merged with the batch: for each key the last drained value governs
(a string sets the parameter, `null` removes it) and keys outside the batch
are untouched. -/
theorem update_promise_post_flush {α : Type} [BEq α] [ToString α]
    (km : KeyMap α) (hook : HookOptions) (opts : Options)
    (ns : List (String × Option α)) (q : Queue) (p : Params) :
    (update km hook opts ns q p).2.2 =
      flushMerge (queueAfterUpdate km hook opts ns q) p ∧
    ∀ key, List.lookup key (update km hook opts ns q p).2.2 =
      (List.lookup key (queueAfterUpdate km hook opts ns q).reverse).getD
        (List.lookup key p) :=
  ⟨rfl, fun key => flushMerge_lookup _ p key⟩

/-- Claim C8: keys of the new state object that are not declared in the key
map are skipped entirely — running `update` on the state object equals running
it on the state object with the undeclared keys filtered out: same effect
trace (no emission, no enqueue for them), same queue, same promise. -/
theorem update_skips_undeclared {α : Type} [BEq α] [ToString α]
    (km : KeyMap α) (hook : HookOptions) (opts : Options)
    (ns : List (String × Option α)) (q : Queue) (p : Params) :
    update km hook opts ns q p =
      update km hook opts
        (ns.filter (fun kv => (List.lookup kv.1 km).isSome)) q p := by
  unfold update
  rw [loopEffects_filter_declared, queueAfterUpdate_filter_declared]

/-- Claim C9: when clearOnDefault is enabled at call or hook level, the new
value is non-null, the key declares a default and the value equals it under
the configured `eq` (strict equality when none is given), the value is
replaced by `null` before the optimistic emission and before the enqueue —
both effects carry `null` — so a flush of that queued entry removes the
parameter from the URL instead of writing it. -/
theorem update_clearOnDefault_removes {α : Type} [BEq α] [ToString α]
    (km : KeyMap α) (hook : HookOptions) (opts : Options) (key : String)
    (v d : α) (cfg : KeyMapValue α)
    (hcfg : List.lookup key km = some cfg)
    (hclear : (opts.clearOnDefault.getD false || hook.clearOnDefault) = true)
    (hdef : cfg.defaultValue = some d)
    (heq : (cfg.eq.getD (fun a b => a == b)) v d = true) :
    entryEffects km hook opts (key, some v) =
      [Effect.emit key none, Effect.enqueue key none (mergeOpts opts hook)] ∧
    ∀ p : Params,
      List.lookup key (scheduleFlushToURL [(key, none)] p) = none := by
  constructor
  · have hval : transformValue hook opts cfg (some v) = none := by
      simp [transformValue, hdef, hclear, heq]
    simp [entryEffects, hcfg, hval, serializedValue]
  · intro p
    show List.lookup key (flushMerge [(key, none)] p) = none
    rw [flushMerge_lookup]
    simp [List.lookup]

/-- Witness for C9: with hook defaults, call-level clearOnDefault, and the
default value 5 being set again, the emitted and enqueued values are both
`null` and the flush removes the parameter. -/
theorem update_clearOnDefault_removes_witness :
    entryEffects [("k", natCfgDef)] (resolveHookOptions {})
        { clearOnDefault := some true } ("k", some 5) =
      [Effect.emit "k" none,
       Effect.enqueue "k" none
         (mergeOpts { clearOnDefault := some true } (resolveHookOptions {}))] ∧
    ∀ p : Params,
      List.lookup "k" (scheduleFlushToURL [("k", none)] p) = none :=
  update_clearOnDefault_removes [("k", natCfgDef)] (resolveHookOptions {})
    { clearOnDefault := some true } "k" 5 5 natCfgDef rfl rfl rfl (by decide)

/-- Claim C10: every enqueue performed by `update` carries the merged options
in which each of history, shallow, scroll, throttleMs and startTransition is
the call-level option when provided and the hook-declaration option otherwise;
the hook-declaration options themselves default to history `replace`, scroll
`false`, shallow `true` and throttleMs `FLUSH_RATE_LIMIT_MS` when absent. -/
theorem update_option_precedence {α : Type} [BEq α] [ToString α]
    (km : KeyMap α) (declOpts callOpts : Options)
    (ns : List (String × Option α)) (q : Queue) (p : Params) :
    (∀ key w o,
      Effect.enqueue key w o ∈
          (update km (resolveHookOptions declOpts) callOpts ns q p).1 →
        o = mergeOpts callOpts (resolveHookOptions declOpts)) ∧
    (∀ hook : HookOptions,
      ((∀ x, callOpts.history = some x →
          (mergeOpts callOpts hook).history = x) ∧
       (callOpts.history = none →
          (mergeOpts callOpts hook).history = hook.history)) ∧
      ((∀ x, callOpts.shallow = some x →
          (mergeOpts callOpts hook).shallow = x) ∧
       (callOpts.shallow = none →
          (mergeOpts callOpts hook).shallow = hook.shallow)) ∧
      ((∀ x, callOpts.scroll = some x →
          (mergeOpts callOpts hook).scroll = x) ∧
       (callOpts.scroll = none →
          (mergeOpts callOpts hook).scroll = hook.scroll)) ∧
      ((∀ x, callOpts.throttleMs = some x →
          (mergeOpts callOpts hook).throttleMs = x) ∧
       (callOpts.throttleMs = none →
          (mergeOpts callOpts hook).throttleMs = hook.throttleMs)) ∧
      ((∀ x, callOpts.startTransition = some x →
          (mergeOpts callOpts hook).startTransition = some x) ∧
       (callOpts.startTransition = none →
          (mergeOpts callOpts hook).startTransition = hook.startTransition))) ∧
    ((declOpts.history = none →
        (resolveHookOptions declOpts).history = History.replace) ∧
     (declOpts.scroll = none → (resolveHookOptions declOpts).scroll = false) ∧
     (declOpts.shallow = none → (resolveHookOptions declOpts).shallow = true) ∧
     (declOpts.throttleMs = none →
        (resolveHookOptions declOpts).throttleMs = FLUSH_RATE_LIMIT_MS)) := by
  refine ⟨?_, ?_, ?_⟩
  · intro key w o hmem
    have htr : (update km (resolveHookOptions declOpts) callOpts ns q p).1 =
        loopEffects km (resolveHookOptions declOpts) callOpts ns ++
          [Effect.scheduleFlush] := rfl
    rw [htr, List.mem_append] at hmem
    rcases hmem with hmem | hmem
    · exact loop_enqueue_opts km _ callOpts ns key w o hmem
    · simp at hmem
  · intro hook
    refine ⟨⟨?_, ?_⟩, ⟨?_, ?_⟩, ⟨?_, ?_⟩, ⟨?_, ?_⟩, ⟨?_, ?_⟩⟩ <;>
      first
        | (intro x hx; simp [mergeOpts, hx, Option.orElse])
        | (intro hx; simp [mergeOpts, hx, Option.orElse])
  · refine ⟨?_, ?_, ?_, ?_⟩ <;> (intro hx; simp [resolveHookOptions, hx])

/-- Witness for C10: with history, shallow and startTransition given at call
level and scroll, throttleMs only at the hook declaration, the merged options
take the call-level values for the former and the hook values for the latter,
and the absent hook history defaults to `replace`. -/
theorem update_option_precedence_witness :
    (mergeOpts exCallOpts (resolveHookOptions exDeclOpts)).history =
      History.push ∧
    (mergeOpts exCallOpts (resolveHookOptions exDeclOpts)).shallow = false ∧
    (mergeOpts exCallOpts (resolveHookOptions exDeclOpts)).scroll =
      (resolveHookOptions exDeclOpts).scroll ∧
    (mergeOpts exCallOpts (resolveHookOptions exDeclOpts)).throttleMs =
      (resolveHookOptions exDeclOpts).throttleMs ∧
    (mergeOpts exCallOpts (resolveHookOptions exDeclOpts)).startTransition =
      some 7 ∧
    (resolveHookOptions exDeclOpts).history = History.replace := by
  have h := update_option_precedence (α := Nat) [] exDeclOpts exCallOpts [] [] []
  exact ⟨(h.2.1 _).1.1 History.push rfl, (h.2.1 _).2.1.1 false rfl,
    (h.2.1 _).2.2.1.2 rfl, (h.2.1 _).2.2.2.1.2 rfl,
    (h.2.1 _).2.2.2.2.1 7 rfl, h.2.2.1 rfl⟩

end Nuqs
